import Mathlib

/-!
Verification of the client-side meal-analysis lifecycle of `camera.tsx`
(Calo31). The file shallowly embeds the screen's pure logic — base64 image
validation, heterogeneous ingredient normalization, the drag-to-remove
threshold — and its stateful lifecycle handlers (`analyzeImage`,
`reAnalyzeWithEdits`, `handlePost`, `handleUpdate`, `handleDiscard`) as a
step function over an explicit state record, with the external services
(analysis, persistence, durable key-value store) supplied as oracle results
on events. The Redux meal slice (`analyzeMeal`, `postMeal`, `updateMeal`,
`clearPendingMeal`) is not part of the provided source; its effect on the
store is modelled from the spec's external-interface contracts and marked
as such at each definition.
-/

namespace Calo

/-! ## JavaScript values and truthiness

Ingredient entries in the analysis response are loosely typed JSON data.
`JVal` models the values that can sit in a field: numbers (JavaScript
numbers, modelled as rationals, with `nan` kept separate because it is
falsy), strings, booleans and `null`.  Absent fields (`undefined`) are
modelled by `Option`. -/

inductive JVal where
  | num (q : ℚ)
  | str (s : String)
  | bool (b : Bool)
  | null
  | nan
deriving DecidableEq

/-- JavaScript truthiness of a `JVal`: `0`, `NaN`, `""`, `false` and `null`
are falsy, everything else is truthy. -/
def truthy : JVal → Bool
  | .num q => decide (q ≠ 0)
  | .str s => decide (s ≠ "")
  | .bool b => b
  | .null => false
  | .nan => false

/-- JavaScript `a || d` where `a` is a possibly-absent field value:
the left operand when it is present and truthy, otherwise the default. -/
def jsOr (a : Option JVal) (d : JVal) : JVal :=
  match a with
  | none => d
  | some v => if truthy v then v else d

/-! ## Ingredient normalization (`useEffect` on `pendingMeal`, camera.tsx)

A raw ingredient entry is either a plain name string or a structured object
with inconsistent field naming; `RawIngObj` lists exactly the keys the
normalization reads. -/

structure RawIngObj where
  name : Option JVal
  calories : Option JVal
  protein_g : Option JVal
  protein : Option JVal
  carbs_g : Option JVal
  carbs : Option JVal
  fats_g : Option JVal
  fat : Option JVal
  fiber_g : Option JVal
  fiber : Option JVal
  sugar_g : Option JVal
  sugar : Option JVal
  sodium_mg : Option JVal
  sodium : Option JVal
deriving DecidableEq

/-- A raw ingredient entry of the analysis response:
`typeof ing === 'string'` distinguishes the two shapes. -/
inductive RawIng where
  | str (s : String)
  | obj (o : RawIngObj)
deriving DecidableEq

/-- The raw-object with every field absent. -/
def RawIngObj.empty : RawIngObj :=
  ⟨none, none, none, none, none, none, none, none, none, none, none, none, none, none⟩

/-- The normalized `Ingredient` of camera.tsx.  The interface declares the
nutrient fields as `number`, but the normalization below copies raw `JVal`s
into them unchecked, so the embedding keeps the fields at `JVal` to record
exactly what the code stores. -/
structure Ingredient where
  id : String
  name : JVal
  calories : JVal
  protein_g : JVal
  carbs_g : JVal
  fats_g : JVal
  fiber_g : JVal
  sugar_g : JVal
  sodium_mg : JVal
deriving DecidableEq

/-- One entry of the `formattedIngredients` map in the `pendingMeal`
`useEffect` (camera.tsx lines 110–120), at position `index`. -/
def normIngredient (index : Nat) (ing : RawIng) : Ingredient :=
  match ing with
  | .str s =>
      { id := "ing_" ++ toString index
        name := .str s
        calories := .num 0
        protein_g := .num 0
        carbs_g := .num 0
        fats_g := .num 0
        fiber_g := .num 0
        sugar_g := .num 0
        sodium_mg := .num 0 }
  | .obj o =>
      { id := "ing_" ++ toString index
        name := jsOr o.name (.str ("Ingredient " ++ toString (index + 1)))
        calories := jsOr o.calories (.num 0)
        protein_g := jsOr o.protein_g (jsOr o.protein (.num 0))
        carbs_g := jsOr o.carbs_g (jsOr o.carbs (.num 0))
        fats_g := jsOr o.fats_g (jsOr o.fat (.num 0))
        fiber_g := jsOr o.fiber_g (jsOr o.fiber (.num 0))
        sugar_g := jsOr o.sugar_g (jsOr o.sugar (.num 0))
        sodium_mg := jsOr o.sodium_mg (jsOr o.sodium (.num 0)) }

/-- `formattedIngredients`: the indexed map over the raw ingredient list. -/
def formatIngredients (l : List RawIng) : List Ingredient :=
  l.enum.map fun p => normIngredient p.1 p.2

/-- Stated from the spec's words for comparison with the source
normalization: "take the first populated value among known synonym keys for
each nutrient, defaulting every missing/non-numeric field to zero", where a
key is populated when it is present and carries a JavaScript-truthy value. -/
def firstPopulatedValue : List (Option JVal) → JVal
  | [] => .num 0
  | none :: rest => firstPopulatedValue rest
  | some v :: rest => if truthy v then v else firstPopulatedValue rest

/-- Re-injection of a normalized `Ingredient` into the raw response shape,
as an object carrying the normalized keys (the synthetic `id` is not a key
the normalization reads, so it is dropped).  Used to state idempotence of
the normalization on its own output. -/
def toRaw (ing : Ingredient) : RawIng :=
  .obj { RawIngObj.empty with
          name := some ing.name
          calories := some ing.calories
          protein_g := some ing.protein_g
          carbs_g := some ing.carbs_g
          fats_g := some ing.fats_g
          fiber_g := some ing.fiber_g
          sugar_g := some ing.sugar_g
          sodium_mg := some ing.sodium_mg }

/-! ## Image validation (`validateAndProcessImage`, camera.tsx lines 180–208)

JavaScript strings are modelled as `List Char`; the `String`-level function
wraps the character-level one.  `trim` is modelled over the ASCII
whitespace characters, which suffices for the blank check (all JavaScript
whitespace characters are outside the base64 alphabet, which is the only
fact the analysis uses). -/

/-- Whitespace for the model of `String.prototype.trim`. -/
def isJsSpace (c : Char) : Bool :=
  c == ' ' || c == '\t' || c == '\n' || c == '\r'

/-- Model of JavaScript `trim`: drop whitespace from both ends. -/
def jsTrim (l : List Char) : List Char :=
  ((l.dropWhile isJsSpace).reverse.dropWhile isJsSpace).reverse

/-- The text after the first comma, when a comma occurs
(JavaScript `indexOf(",")` followed by `substring(commaIndex + 1)`). -/
def afterFirstComma : List Char → Option (List Char)
  | [] => none
  | c :: cs => if c = ',' then some cs else afterFirstComma cs

/-- The recognized data-URI header, `startsWith("data:image/")`. -/
def dataUriHeader : List Char := "data:image/".data

/-- The `cleanBase64` computation: when the payload starts with the
recognized header and contains a comma, keep only the text after the first
comma; otherwise keep the payload unchanged. -/
def stripDataUri (l : List Char) : List Char :=
  if dataUriHeader.isPrefixOf l then (afterFirstComma l).getD l else l

/-- Membership in the base64 alphabet `[A-Za-z0-9+/]`. -/
def isB64Char (c : Char) : Bool :=
  (decide ('A' ≤ c) && decide (c ≤ 'Z')) ||
  (decide ('a' ≤ c) && decide (c ≤ 'z')) ||
  (decide ('0' ≤ c) && decide (c ≤ '9')) ||
  c == '+' || c == '/'

/-- The test of `/^[A-Za-z0-9+/]*={0,2}$/`: the trailing run of `'='` has
length at most two and everything before it is in the base64 alphabet
(`'='` is not in the alphabet, so this is exactly the regex language). -/
def matchesBase64 (l : List Char) : Bool :=
  decide ((l.reverse.takeWhile fun c => c == '=').length ≤ 2) &&
    (l.reverse.dropWhile fun c => c == '=').all isB64Char

/-- Character-level `validateAndProcessImage`: reject blank input, strip a
recognized data-URI header (the source binds the stripped payload to
`cleanBase64`, written out here), reject on the regex or on length below
1000, otherwise return the cleaned payload. -/
def validateChars (l : List Char) : Option (List Char) :=
  if jsTrim l = [] then none
  else if matchesBase64 (stripDataUri l) then
    if (stripDataUri l).length < 1000 then none else some (stripDataUri l)
  else none

/-- `validateAndProcessImage` (camera.tsx lines 180–208). -/
def validateAndProcessImage (s : String) : Option String :=
  (validateChars s.data).map String.mk

/-! ## Drag-to-remove gesture (camera.tsx lines 413–415 and 450–477) -/

/-- `removeIngredient`: keep every ingredient whose id differs. -/
def removeIngredient (ingredientId : String) (l : List Ingredient) : List Ingredient :=
  l.filter fun ing => ing.id != ingredientId

/-- `onPanResponderRelease`: the source compares
`Math.sqrt(dx*dx + dy*dy) > 100`; over the reals this holds exactly when
`dx*dx + dy*dy > 100*100` (both sides are nonnegative), which is the
decidable form used here and proved equivalent in the claim theorem.
Displacements are JavaScript numbers, modelled as rationals. -/
def onPanRelease (dx dy : ℚ) (ing : Ingredient) (l : List Ingredient) : List Ingredient :=
  if dx * dx + dy * dy > 100 * 100 then removeIngredient ing.id l else l

/-! ## The meal lifecycle state machine

The screen's state is the component's `useState` slots plus the two pieces
of external state it drives: the store's `pendingMeal` slot and the durable
`AsyncStorage` record under the key `"postedMealId"`.  Each user action
together with the outcome of the external call it triggers is one atomic
event; React's `useEffect` reactions to a `pendingMeal` change are folded
into the event that changes `pendingMeal`, mirroring the serialized,
event-driven control flow. -/

/-- The analysis response shape
(`{ meal_name, description, ingredients }`). -/
structure Analysis where
  meal_name : Option String
  description : Option String
  ingredients : Option (List RawIng)
deriving DecidableEq

/-- Modelled from the spec: the store's pending-meal slot as the meal slice
keeps it — the normalized-at-the-boundary raw analysis plus the image that
was sent (`image_base_64`).  The slice itself (`mealSlice.ts`) is not in
the provided source. -/
structure PendingMeal where
  analysis : Option Analysis
  image_base_64 : Option String
deriving DecidableEq

/-- The screen state: local `useState` slots, the store's `pendingMeal`,
and the durable `AsyncStorage` record `storedMealId`. -/
structure State where
  mealName : String
  mealDescription : String
  ingredients : List Ingredient
  postedMealId : Option String
  originalImageBase64 : String
  editText : String
  showEditModal : Bool
  pendingMeal : Option PendingMeal
  storedMealId : Option String
deriving DecidableEq

/-- The initial screen state: every slot empty. -/
def initState : State :=
  { mealName := ""
    mealDescription := ""
    ingredients := []
    postedMealId := none
    originalImageBase64 := ""
    editText := ""
    showEditModal := false
    pendingMeal := none
    storedMealId := none }

/-- Outcome of a dispatched `analyzeMeal` call.  Modelled from the spec:
on fulfillment the analysis service returns the response shape, and the
slice stores it as the new `pendingMeal` together with the sent image. -/
inductive AnalyzeRes where
  | fulfilled (a : Analysis)
  | rejected
deriving DecidableEq

/-- Outcome of a dispatched `postMeal` call; the payload's `meal_id` after
`?.toString()` is possibly absent, as `handlePost` reads it. -/
inductive PostRes where
  | fulfilled (meal_id : Option String)
  | rejected
deriving DecidableEq

/-- Outcome of a dispatched `updateMeal` call. -/
inductive UpdateRes where
  | fulfilled
  | rejected
deriving DecidableEq

/-- One atomic user action, carrying the oracle outcome of the external
call it triggers (ignored on paths that dispatch no call). -/
inductive Event where
  | analyzeImageEv (img : String) (res : AnalyzeRes)
  | reAnalyzeEv (res : AnalyzeRes)
  | postEv (res : PostRes)
  | updateEv (res : UpdateRes)
  | discardConfirm
  | discardCancel
  | setMealNameEv (v : String)
  | setMealDescriptionEv (v : String)
  | setEditTextEv (v : String)
  | removeIngredientEv (ingredientId : String)
  | saveIngredientEditEv (ing : Ingredient)
deriving DecidableEq

/-- The two `useEffect` reactions to a `pendingMeal` change (camera.tsx
lines 104–127 and 147–162): when an analysis is present, copy its fields
into the local draft through the normalization, keep the image when the
slot carries one, and re-load the persisted meal id into memory when the
durable record holds one. -/
def applyPendingEffect (s : State) : State :=
  match s.pendingMeal with
  | none => s
  | some pm =>
      let s1 :=
        match pm.analysis with
        | none => s
        | some a =>
            { s with
              mealName := a.meal_name.getD ""
              mealDescription := a.description.getD ""
              ingredients := formatIngredients (a.ingredients.getD [])
              originalImageBase64 :=
                match pm.image_base_64 with
                | some img => if img ≠ "" then img else s.originalImageBase64
                | none => s.originalImageBase64 }
      match s.storedMealId with
      | some id => if id ≠ "" then { s1 with postedMealId := some id } else s1
      | none => s1

/-- `analyzeImage` (camera.tsx lines 210–238): validate; on failure stop
with no state change; on success remember the validated image, clear the
in-memory and durable meal id, then dispatch `analyzeMeal`.  On
fulfillment the slice stores the new `pendingMeal` (modelled from the
spec) and the `useEffect`s fire. -/
def analyzeImage (img : String) (res : AnalyzeRes) (s : State) : State :=
  match validateAndProcessImage img with
  | none => s
  | some v =>
      let s1 := { s with originalImageBase64 := v, postedMealId := none,
                         storedMealId := none }
      match res with
      | .rejected => s1
      | .fulfilled a =>
          applyPendingEffect
            { s1 with pendingMeal := some ⟨some a, some v⟩ }

/-- The image `reAnalyzeWithEdits` works on:
`originalImageBase64 || pendingMeal?.image_base_64`, a falsy result
meaning none. -/
def reAnalyzeImage (s : State) : Option String :=
  if s.originalImageBase64 ≠ "" then some s.originalImageBase64
  else
    match s.pendingMeal with
    | none => none
    | some pm =>
        match pm.image_base_64 with
        | none => none
        | some i => if i ≠ "" then some i else none

/-- JavaScript string coercion of a `JVal`, for the template literals. -/
def jvalStr : JVal → String
  | .num q => toString q
  | .str s => s
  | .bool b => if b then "true" else "false"
  | .null => "null"
  | .nan => "NaN"

/-- The free-text correction summary `reAnalyzeWithEdits` synthesizes from
the current draft (whitespace of the template literal elided). -/
def reAnalyzeText (s : State) : String :=
  "Updated meal name: " ++ s.mealName ++
  " Updated description: " ++ s.mealDescription ++
  " Corrected ingredients: " ++
    String.intercalate ", " (s.ingredients.map fun ing => jvalStr ing.name) ++
  (if s.editText ≠ "" then " Additional notes: " ++ s.editText else "")

/-- The two early returns of `reAnalyzeWithEdits` in sequence: the image
to use, when available, passed through `validateAndProcessImage`. -/
def reAnalyzeValidated (s : State) : Option String :=
  (reAnalyzeImage s).bind validateAndProcessImage

/-- `reAnalyzeWithEdits` (camera.tsx lines 240–282): stop when no image is
available or validation fails; otherwise dispatch `analyzeMeal` with the
correction summary.  On fulfillment the slice replaces `pendingMeal`
(modelled from the spec), the `useEffect`s fire, the edit modal closes and
the notes field is cleared; on rejection nothing changes. -/
def reAnalyzeWithEdits (res : AnalyzeRes) (s : State) : State :=
  match reAnalyzeValidated s with
  | none => s
  | some v =>
      match res with
      | .rejected => s
      | .fulfilled a =>
          applyPendingEffect
            { s with pendingMeal := some ⟨some a, some v⟩,
                     showEditModal := false, editText := "" }

/-- `handlePost` (camera.tsx lines 329–352): only when a pending meal
exists, dispatch the argument-less `postMeal()`; on fulfillment with a
truthy `meal_id`, set the in-memory id and write the durable record. -/
def handlePost (res : PostRes) (s : State) : State :=
  match s.pendingMeal with
  | none => s
  | some _ =>
      match res with
      | .rejected => s
      | .fulfilled meal_id =>
          match meal_id with
          | none => s
          | some id =>
              if id ≠ "" then { s with postedMealId := some id, storedMealId := some id }
              else s

/-- The free-text correction summary `handleUpdate` synthesizes
(whitespace of the template literal elided). -/
def updateText (s : State) : String :=
  "Updated meal name: " ++ s.mealName ++
  " Updated description: " ++ s.mealDescription ++
  " Updated ingredients: " ++
    String.intercalate ", "
      (s.ingredients.map fun ing =>
        jvalStr ing.name ++ " (" ++ jvalStr ing.calories ++ " cal)") ++
  (if s.editText ≠ "" then " Additional notes: " ++ s.editText else "")

/-- `handleUpdate` (camera.tsx lines 354–392): with no in-memory meal id,
surface a validation error and stop; otherwise dispatch `updateMeal`.  On
fulfillment, close the modal, clear the notes, clear the pending meal, the
in-memory id, the kept image and the durable record; the name,
description and ingredient slots are left as they are. -/
def handleUpdate (res : UpdateRes) (s : State) : State :=
  match s.postedMealId with
  | none => s
  | some _ =>
      match res with
      | .rejected => s
      | .fulfilled =>
          { s with showEditModal := false, editText := "",
                   pendingMeal := none, postedMealId := none,
                   originalImageBase64 := "", storedMealId := none }

/-- `handleDiscard` (camera.tsx lines 394–411): once confirmed, clear the
pending meal, the in-memory id, the kept image, the draft fields and the
durable record; on cancel, nothing. -/
def handleDiscard (confirmed : Bool) (s : State) : State :=
  if confirmed then
    { s with pendingMeal := none, postedMealId := none,
             originalImageBase64 := "", mealName := "",
             mealDescription := "", ingredients := [],
             storedMealId := none }
  else s

/-- One step of the lifecycle controller. -/
def step (s : State) : Event → State
  | .analyzeImageEv img res => analyzeImage img res s
  | .reAnalyzeEv res => reAnalyzeWithEdits res s
  | .postEv res => handlePost res s
  | .updateEv res => handleUpdate res s
  | .discardConfirm => handleDiscard true s
  | .discardCancel => handleDiscard false s
  | .setMealNameEv v => { s with mealName := v }
  | .setMealDescriptionEv v => { s with mealDescription := v }
  | .setEditTextEv v => { s with editText := v }
  | .removeIngredientEv ingredientId =>
      { s with ingredients := removeIngredient ingredientId s.ingredients }
  | .saveIngredientEditEv ing =>
      { s with ingredients :=
          s.ingredients.map fun i => if i.id = ing.id then ing else i }

/-- An external call dispatched during an event.  Modelled from the spec
for the payloads the slice sends: `create` sends the store's pending meal
(the thunk `postMeal()` takes no argument and reads the store), `update`
sends the meal id with the correction summary, `analyze` sends the
validated image with the optional correction summary. -/
inductive Call where
  | analyzeCall (img : String) (correction : Option String)
  | createCall (draft : PendingMeal)
  | updateCall (meal_id : String) (correction : String)
deriving DecidableEq

/-- The external calls an event dispatches, read off the same branch
structure as `step`. -/
def callsOf (s : State) : Event → List Call
  | .analyzeImageEv img _ =>
      match validateAndProcessImage img with
      | none => []
      | some v => [.analyzeCall v none]
  | .reAnalyzeEv _ =>
      match reAnalyzeValidated s with
      | none => []
      | some v => [.analyzeCall v (some (reAnalyzeText s))]
  | .postEv _ =>
      match s.pendingMeal with
      | none => []
      | some pm => [.createCall pm]
  | .updateEv _ =>
      match s.postedMealId with
      | none => []
      | some id => [.updateCall id (updateText s)]
  | _ => []

/-- The states reachable from the fresh screen. -/
inductive Reachable : State → Prop where
  | init : Reachable initState
  | step {s : State} (e : Event) : Reachable s → Reachable (step s e)

/-! ## Concrete inputs used by the witnesses -/

/-- The spec scenario's structured entry `{name: "Egg", protein: 6}`. -/
def eggObj : RawIngObj :=
  { RawIngObj.empty with
      name := some (JVal.str "Egg")
      protein := some (JVal.num 6) }

/-- The spec scenario's mixed list `["Rice", {name: "Egg", protein: 6}]`. -/
def demoRawList : List RawIng := [RawIng.str "Rice", RawIng.obj eggObj]

/-- A concrete valid payload: 1000 alphabet characters. -/
def goodImage : String := String.mk (List.replicate 1000 'A')

/-- A concrete normalized ingredient. -/
def demoIngredient : Ingredient := normIngredient 0 (RawIng.str "Rice")

/-- A concrete analysis response. -/
def demoAnalysis : Analysis :=
  { meal_name := some "Bowl", description := some "Rice bowl",
    ingredients := some demoRawList }

/-- A state holding a pending meal (fresh draft, nothing posted). -/
def draftState : State :=
  { initState with pendingMeal := some ⟨some demoAnalysis, some goodImage⟩ }

/-- The same pending meal with different local edits. -/
def draftStateEdited : State :=
  { draftState with mealName := "edited", ingredients := [demoIngredient] }

/-- The consistency invariant tying the in-memory meal id, the durable
record and the pending meal: the two ids always agree, and an id is only
ever held while a pending meal exists. -/
def MealInv (s : State) : Prop :=
  s.postedMealId = s.storedMealId ∧
    (s.postedMealId.isSome = true → s.pendingMeal.isSome = true)

/-- The events at state `s` that legitimately change the posted meal id:
a new capture with a valid image (clears), a successful create with a
truthy id while a draft exists (sets), a successful update while an id is
held (clears), and a confirmed discard (clears). -/
def mealIdEvent (s : State) : Event → Prop
  | .analyzeImageEv img _ => (validateAndProcessImage img).isSome = true
  | .postEv res => s.pendingMeal.isSome = true ∧
      ∃ id, res = PostRes.fulfilled (some id) ∧ id ≠ ""
  | .updateEv res => s.postedMealId.isSome = true ∧ res = UpdateRes.fulfilled
  | .discardConfirm => True
  | _ => False

/-! ## Lemmas about the ingredient normalization -/

theorem formatIngredients_length (l : List RawIng) :
    (formatIngredients l).length = l.length := by
  simp [formatIngredients]

theorem formatIngredients_getElem? (l : List RawIng) (i : Nat) :
    (formatIngredients l)[i]? = l[i]?.map (normIngredient i) := by
  unfold formatIngredients
  rw [List.getElem?_map, List.getElem?_enum]
  cases l[i]? <;> rfl

theorem jsOr_of_truthy {v : JVal} (d : JVal) (h : truthy v = true) :
    jsOr (some v) d = v := by
  simp [jsOr, h]

theorem jsOr_truthy_or_default (a : Option JVal) (d : JVal) :
    truthy (jsOr a d) = true ∨ jsOr a d = d := by
  cases a with
  | none => exact Or.inr rfl
  | some v =>
      by_cases h : truthy v = true
      · exact Or.inl (by simp [jsOr, h])
      · exact Or.inr (by simp [jsOr, h])

theorem truthy_jsOr_of_default (a : Option JVal) {d : JVal}
    (hd : truthy d = true) : truthy (jsOr a d) = true := by
  rcases jsOr_truthy_or_default a d with h | h
  · exact h
  · rw [h]; exact hd

theorem jsOr_chain_zero (a : Option JVal) {d : JVal}
    (hd : truthy d = true ∨ d = JVal.num 0) :
    truthy (jsOr a d) = true ∨ jsOr a d = JVal.num 0 := by
  rcases jsOr_truthy_or_default a d with h | h
  · exact Or.inl h
  · rcases hd with h2 | h2
    · exact Or.inl (by rw [h]; exact h2)
    · exact Or.inr (by rw [h]; exact h2)

theorem jsOr_some_zero {v : JVal} (h : truthy v = true ∨ v = JVal.num 0) :
    jsOr (some v) (JVal.num 0) = v := by
  rcases h with h | rfl
  · exact jsOr_of_truthy _ h
  · simp [jsOr]

theorem firstPopulatedValue_single (x : Option JVal) :
    firstPopulatedValue [x] = jsOr x (JVal.num 0) := by
  cases x <;> simp [firstPopulatedValue, jsOr]

theorem firstPopulatedValue_pair (x y : Option JVal) :
    firstPopulatedValue [x, y] = jsOr x (jsOr y (JVal.num 0)) := by
  cases x <;> cases y <;> simp [firstPopulatedValue, jsOr]

theorem truthy_ingredient_default (i : Nat) :
    truthy (JVal.str ("Ingredient " ++ toString (i + 1))) = true := by
  simp only [truthy, decide_eq_true_eq]
  intro h
  have h2 : ("Ingredient " ++ toString (i + 1)).length = 0 := by rw [h]; rfl
  rw [String.length_append] at h2
  have h3 : "Ingredient ".length = 11 := rfl
  omega

/-- Each nutrient slot of a normalized ingredient is truthy or zero. -/
theorem nutrient_truthy_or_zero (a b : Option JVal) :
    truthy (jsOr a (jsOr b (JVal.num 0))) = true ∨
      jsOr a (jsOr b (JVal.num 0)) = JVal.num 0 :=
  jsOr_chain_zero a (jsOr_chain_zero b (Or.inr rfl))

/-- Re-normalizing a normalized ingredient is the identity, except on the
plain empty-string entry (whose name the second pass replaces with the
positional default). -/
theorem normIngredient_toRaw (i : Nat) (r : RawIng) (h : r ≠ RawIng.str "") :
    normIngredient i (toRaw (normIngredient i r)) = normIngredient i r := by
  cases r with
  | str s =>
      have hs : truthy (JVal.str s) = true := by
        simp only [truthy, decide_eq_true_eq]
        intro he
        exact h (by rw [he])
      simp [normIngredient, toRaw, RawIngObj.empty, jsOr, hs]
  | obj o =>
      have hname : truthy (jsOr o.name
          (JVal.str ("Ingredient " ++ toString (i + 1)))) = true :=
        truthy_jsOr_of_default _ (truthy_ingredient_default i)
      have hcal : jsOr (some (jsOr o.calories (JVal.num 0))) (JVal.num 0) =
          jsOr o.calories (JVal.num 0) :=
        jsOr_some_zero (jsOr_chain_zero _ (Or.inr rfl))
      simp only [normIngredient, toRaw, RawIngObj.empty, Ingredient.mk.injEq]
      refine ⟨trivial, jsOr_of_truthy _ hname, hcal, ?_, ?_, ?_, ?_, ?_, ?_⟩ <;>
        exact jsOr_some_zero (nutrient_truthy_or_zero _ _)

/-- C2: on a mixed list of plain strings and structured objects the
normalization yields exactly one `Ingredient` per entry, positionally (the
`i`-th output is the normalization of the `i`-th input), assigns the
synthetic id `ing_<index>`, and fills each nutrient with the first
populated (present and JavaScript-truthy) value among its synonym keys —
`protein_g` before `protein`, `carbs_g` before `carbs`, `fats_g` before
`fat`, and likewise for fiber, sugar and sodium. -/
theorem formatIngredients_normalizes (l : List RawIng) (i : Nat) :
    (formatIngredients l).length = l.length ∧
    (formatIngredients l)[i]? = l[i]?.map (normIngredient i) ∧
    (∀ r : RawIng, (normIngredient i r).id = "ing_" ++ toString i) ∧
    (∀ o : RawIngObj,
      (normIngredient i (RawIng.obj o)).calories =
        firstPopulatedValue [o.calories] ∧
      (normIngredient i (RawIng.obj o)).protein_g =
        firstPopulatedValue [o.protein_g, o.protein] ∧
      (normIngredient i (RawIng.obj o)).carbs_g =
        firstPopulatedValue [o.carbs_g, o.carbs] ∧
      (normIngredient i (RawIng.obj o)).fats_g =
        firstPopulatedValue [o.fats_g, o.fat] ∧
      (normIngredient i (RawIng.obj o)).fiber_g =
        firstPopulatedValue [o.fiber_g, o.fiber] ∧
      (normIngredient i (RawIng.obj o)).sugar_g =
        firstPopulatedValue [o.sugar_g, o.sugar] ∧
      (normIngredient i (RawIng.obj o)).sodium_mg =
        firstPopulatedValue [o.sodium_mg, o.sodium]) := by
  refine ⟨formatIngredients_length l, formatIngredients_getElem? l i, ?_, ?_⟩
  · intro r; cases r <;> rfl
  · intro o
    simp [normIngredient, firstPopulatedValue_single, firstPopulatedValue_pair]

/-- Witness for C2 at position 1 of the spec scenario's mixed list. -/
theorem formatIngredients_normalizes_witness :
    (formatIngredients demoRawList)[1]? =
      demoRawList[1]?.map (normIngredient 1) :=
  (formatIngredients_normalizes demoRawList 1).2.1

/-- C3 (code bug): the `Ingredient` interface declares the nutrient fields
as numbers and the spec has malformed fields reset to zero, but the `||`
fallback propagates any JavaScript-truthy non-numeric value unchanged: an
input object with `calories: "abc"` normalizes to an ingredient whose
`calories` is the string `"abc"`, not `0`. -/
theorem normIngredient_propagates_nonnumeric :
    (normIngredient 0 (RawIng.obj
        { RawIngObj.empty with calories := some (JVal.str "abc") })).calories =
      JVal.str "abc" ∧
    JVal.str "abc" ≠ JVal.num 0 := by
  exact ⟨rfl, by decide⟩

/-- C8 (counterexample): the normalization is not idempotent — a plain
empty-string entry normalizes to an ingredient named `""`, and a second
pass over that output replaces the falsy name with the positional default
`"Ingredient 1"`. -/
theorem formatIngredients_not_idempotent :
    formatIngredients ((formatIngredients [RawIng.str ""]).map toRaw) ≠
      formatIngredients [RawIng.str ""] := by
  decide

/-- C8 (amended): on every input list with no plain empty-string entry,
re-running the normalization on its own output (each output ingredient
read back as a structured raw object under its canonical keys) is a
no-op. -/
theorem formatIngredients_idempotent (l : List RawIng)
    (h : ∀ r ∈ l, r ≠ RawIng.str "") :
    formatIngredients ((formatIngredients l).map toRaw) = formatIngredients l := by
  apply List.ext_getElem?
  intro i
  rw [formatIngredients_getElem?, List.getElem?_map, formatIngredients_getElem?]
  cases hl : l[i]? with
  | none => rfl
  | some r =>
      have hr : r ∈ l := List.getElem?_mem hl
      simp [normIngredient_toRaw i r (h r hr)]

/-- Witness for C8's amended theorem at the spec scenario's mixed list. -/
theorem formatIngredients_idempotent_witness :
    formatIngredients ((formatIngredients demoRawList).map toRaw) =
      formatIngredients demoRawList :=
  formatIngredients_idempotent demoRawList (by decide)

/-! ## Lemmas about the image validation -/

theorem isJsSpace_cases {c : Char} (h : isJsSpace c = true) :
    c = ' ' ∨ c = '\t' ∨ c = '\n' ∨ c = '\r' := by
  unfold isJsSpace at h
  rcases Bool.or_eq_true_iff.mp h with h1 | h4
  · rcases Bool.or_eq_true_iff.mp h1 with h2 | h3
    · rcases Bool.or_eq_true_iff.mp h2 with h | h
      · exact Or.inl (eq_of_beq h)
      · exact Or.inr (Or.inl (eq_of_beq h))
    · exact Or.inr (Or.inr (Or.inl (eq_of_beq h3)))
  · exact Or.inr (Or.inr (Or.inr (eq_of_beq h4)))

theorem space_not_b64 {c : Char} (h : isJsSpace c = true) :
    isB64Char c = false ∧ c ≠ '=' := by
  rcases isJsSpace_cases h with rfl | rfl | rfl | rfl <;> exact ⟨by decide, by decide⟩

theorem header_not_space {c : Char} (cs : List Char) (h : isJsSpace c = true) :
    dataUriHeader.isPrefixOf (c :: cs) = false := by
  rcases isJsSpace_cases h with rfl | rfl | rfl | rfl <;> rfl

theorem jsTrim_eq_nil {l : List Char} (h : jsTrim l = []) :
    ∀ c ∈ l, isJsSpace c = true := by
  unfold jsTrim at h
  rw [List.reverse_eq_nil_iff, List.dropWhile_eq_nil_iff] at h
  intro c hc
  rw [← List.takeWhile_append_dropWhile isJsSpace l] at hc
  rcases List.mem_append.mp hc with h1 | h2
  · exact List.mem_takeWhile_imp h1
  · exact h c (List.mem_reverse.mpr h2)

theorem b64_ne_pad {c : Char} (h : isB64Char c = true) : (c == '=') = false := by
  cases h2 : (c == '=') with
  | false => rfl
  | true =>
      have : c = '=' := eq_of_beq h2
      subst this
      exact absurd h (by decide)

theorem takeWhile_replicate_append (p : Char → Bool) (a : Char)
    (hp : p a = true) (k : Nat) (t : List Char) :
    (List.replicate k a ++ t).takeWhile p = List.replicate k a ++ t.takeWhile p := by
  induction k with
  | zero => simp
  | succ n ih => simp [List.replicate_succ, List.takeWhile_cons, hp, ih]

theorem dropWhile_replicate_append (p : Char → Bool) (a : Char)
    (hp : p a = true) (k : Nat) (t : List Char) :
    (List.replicate k a ++ t).dropWhile p = t.dropWhile p := by
  induction k with
  | zero => simp
  | succ n ih => simp [List.replicate_succ, List.dropWhile_cons, hp, ih]

/-- The language of `/^[A-Za-z0-9+/]*={0,2}$/`: a base64-alphabet body
followed by at most two `'='`. -/
theorem matchesBase64_iff (l : List Char) :
    matchesBase64 l = true ↔
      ∃ b k, k ≤ 2 ∧ l = b ++ List.replicate k '=' ∧
        ∀ c ∈ b, isB64Char c = true := by
  constructor
  · intro h
    unfold matchesBase64 at h
    rw [Bool.and_eq_true, decide_eq_true_eq, List.all_eq_true] at h
    obtain ⟨hlen, hall⟩ := h
    refine ⟨(l.reverse.dropWhile fun c => c == '=').reverse,
            (l.reverse.takeWhile fun c => c == '=').length, hlen, ?_, ?_⟩
    · have hsplit : (l.reverse.takeWhile fun c => c == '=') ++
          (l.reverse.dropWhile fun c => c == '=') = l.reverse :=
        List.takeWhile_append_dropWhile _ _
      have htw : (l.reverse.takeWhile fun c => c == '=').reverse =
          List.replicate (l.reverse.takeWhile fun c => c == '=').length '=' := by
        rw [List.eq_replicate_iff]
        refine ⟨by simp, ?_⟩
        intro x hx
        have hx2 : x ∈ l.reverse.takeWhile fun c => c == '=' :=
          List.mem_reverse.mp hx
        simpa using List.mem_takeWhile_imp hx2
      calc l = l.reverse.reverse := (l.reverse_reverse).symm
        _ = ((l.reverse.takeWhile fun c => c == '=') ++
              (l.reverse.dropWhile fun c => c == '=')).reverse := by rw [hsplit]
        _ = (l.reverse.dropWhile fun c => c == '=').reverse ++
              (l.reverse.takeWhile fun c => c == '=').reverse := by
                rw [List.reverse_append]
        _ = _ := by rw [htw]
    · intro c hc
      exact hall c (List.mem_reverse.mp hc)
  · rintro ⟨b, k, hk, rfl, hb⟩
    unfold matchesBase64
    rw [Bool.and_eq_true, decide_eq_true_eq, List.all_eq_true]
    have hrev : (b ++ List.replicate k '=').reverse =
        List.replicate k '=' ++ b.reverse := by
      rw [List.reverse_append, List.reverse_replicate]
    constructor
    · rw [hrev, takeWhile_replicate_append _ _ (by decide) k b.reverse]
      have hnil : (b.reverse.takeWhile fun c => c == '=') = [] := by
        cases hbr : b.reverse with
        | nil => rfl
        | cons c t =>
            have hc : c ∈ b := by
              rw [← List.mem_reverse, hbr]; exact List.mem_cons_self c t
            rw [List.takeWhile_cons, b64_ne_pad (hb c hc)]
            rfl
      rw [hnil]
      simpa using hk
    · intro c hc
      rw [hrev, dropWhile_replicate_append _ _ (by decide) k b.reverse] at hc
      have hcb : c ∈ b.reverse := (List.dropWhile_sublist _).mem hc
      exact hb c (List.mem_reverse.mp hcb)

/-- C1: `validateAndProcessImage` returns, when it accepts, exactly the
payload obtained by stripping a recognized data-URI header (the text after
the first comma); and it accepts precisely when that stripped payload is a
base64-alphabet body followed by at most two `'='` padding characters and
has length at least the 1000-character floor. -/
theorem validateAndProcessImage_spec (p : String) :
    (validateAndProcessImage p = none ∨
      validateAndProcessImage p = some (String.mk (stripDataUri p.data))) ∧
    ((validateAndProcessImage p).isSome = true ↔
      ((∃ b k, k ≤ 2 ∧ stripDataUri p.data = b ++ List.replicate k '=' ∧
          ∀ c ∈ b, isB64Char c = true) ∧
        1000 ≤ (stripDataUri p.data).length)) := by
  unfold validateAndProcessImage validateChars
  by_cases ht : jsTrim p.data = []
  · rw [if_pos ht]
    refine ⟨Or.inl rfl, ?_⟩
    simp only [Option.map_none', Option.isSome_none, Bool.false_eq_true, false_iff]
    rintro ⟨⟨b, k, hk, hsplit, hb⟩, hlen⟩
    have hws := jsTrim_eq_nil ht
    cases hd : p.data with
    | nil =>
        rw [hd] at hlen
        have hstrip : stripDataUri ([] : List Char) = [] := rfl
        rw [hstrip] at hlen
        exact absurd hlen (by norm_num)
    | cons c cs =>
        have hc : isJsSpace c = true := hws c (hd ▸ List.mem_cons_self c cs)
        have hstrip : stripDataUri p.data = p.data := by
          rw [hd]
          unfold stripDataUri
          rw [header_not_space cs hc]
          rfl
        rw [hstrip, hd] at hsplit
        rw [hstrip, hd] at hlen
        cases k with
        | zero =>
            rw [List.replicate_zero, List.append_nil] at hsplit
            have hcb : c ∈ b := by rw [← hsplit]; exact List.mem_cons_self c cs
            have h1 := hb c hcb
            rw [(space_not_b64 hc).1] at h1
            exact absurd h1 (by simp)
        | succ n =>
            have hmem : '=' ∈ c :: cs := by
              rw [hsplit]
              exact List.mem_append.mpr (Or.inr (by simp [List.mem_replicate]))
            have h2 := hws '=' (hd ▸ hmem)
            exact absurd h2 (by decide)
  · rw [if_neg ht]
    by_cases hm : matchesBase64 (stripDataUri p.data) = true
    · rw [if_pos hm]
      by_cases hlen : (stripDataUri p.data).length < 1000
      · rw [if_pos hlen]
        refine ⟨Or.inl rfl, ?_⟩
        simp only [Option.map_none', Option.isSome_none, Bool.false_eq_true, false_iff]
        rintro ⟨-, hge⟩
        omega
      · rw [if_neg hlen]
        refine ⟨Or.inr rfl, ?_⟩
        simp only [Option.map_some', Option.isSome_some, true_iff]
        exact ⟨(matchesBase64_iff _).mp hm, by omega⟩
    · rw [if_neg hm]
      refine ⟨Or.inl rfl, ?_⟩
      simp only [Option.map_none', Option.isSome_none, Bool.false_eq_true, false_iff]
      rintro ⟨hex, -⟩
      exact hm ((matchesBase64_iff _).mpr hex)

theorem stripDataUri_replicateA :
    stripDataUri (List.replicate 1000 'A') = List.replicate 1000 'A' := by
  have h1 : List.replicate 1000 'A' = 'A' :: List.replicate 999 'A' :=
    List.replicate_succ 'A' 999
  rw [h1]
  unfold stripDataUri
  rw [show dataUriHeader.isPrefixOf ('A' :: List.replicate 999 'A') = false
        from rfl]
  rfl

/-- Witness for C1: the 1000-character alphabet payload is accepted. -/
theorem validateAndProcessImage_spec_witness :
    (validateAndProcessImage goodImage).isSome = true := by
  have hdata : goodImage.data = List.replicate 1000 'A' := rfl
  refine (validateAndProcessImage_spec goodImage).2.mpr
    ⟨⟨List.replicate 1000 'A', 0, by omega, ?_, ?_⟩, ?_⟩
  · rw [hdata, stripDataUri_replicateA, List.replicate_zero, List.append_nil]
  · intro c hc
    rw [List.eq_of_mem_replicate hc]
    decide
  · rw [hdata, stripDataUri_replicateA, List.length_replicate]

/-! ## The drag-to-remove threshold -/

/-- The source's `Math.sqrt(dx*dx + dy*dy) > 100` agrees with the squared
comparison the embedding decides on. -/
theorem sqrt_gt_hundred_iff (dx dy : ℚ) :
    Real.sqrt ((dx : ℝ) * dx + dy * dy) > 100 ↔ dx * dx + dy * dy > 100 * 100 := by
  rw [gt_iff_lt, Real.lt_sqrt (by norm_num : (0 : ℝ) ≤ 100), gt_iff_lt,
    show ((100 : ℝ) ^ 2 = ((100 * 100 : ℚ) : ℝ)) by norm_num,
    show (((dx : ℝ)) * dx + dy * dy = ((dx * dx + dy * dy : ℚ) : ℝ)) by push_cast; ring]
  exact Rat.cast_lt

/-- C9: on release with displacement `(dx, dy)`, the ingredient is removed
from the draft exactly when the Euclidean displacement
`sqrt(dx² + dy²)` exceeds 100 (every entry with the dragged id is dropped);
otherwise the list is unchanged. -/
theorem panRelease_threshold (dx dy : ℚ) (ing : Ingredient) (l : List Ingredient) :
    (Real.sqrt ((dx : ℝ) * dx + dy * dy) > 100 →
      onPanRelease dx dy ing l = removeIngredient ing.id l ∧
      ∀ j ∈ onPanRelease dx dy ing l, j.id ≠ ing.id) ∧
    (¬ Real.sqrt ((dx : ℝ) * dx + dy * dy) > 100 →
      onPanRelease dx dy ing l = l) := by
  constructor
  · intro h
    have hq : dx * dx + dy * dy > 100 * 100 := (sqrt_gt_hundred_iff dx dy).mp h
    refine ⟨by simp [onPanRelease, hq], ?_⟩
    intro j hj
    simp only [onPanRelease, if_pos hq, removeIngredient, List.mem_filter,
      bne_iff_ne, ne_eq] at hj
    exact hj.2
  · intro h
    have hq : ¬ dx * dx + dy * dy > 100 * 100 :=
      fun hc => h ((sqrt_gt_hundred_iff dx dy).mpr hc)
    simp [onPanRelease, hq]

/-- Witness for C9 at displacement `(100, 100)` (distance `√20000 > 100`)
on a one-element list. -/
theorem panRelease_threshold_witness :
    onPanRelease 100 100 demoIngredient [demoIngredient] =
      removeIngredient demoIngredient.id [demoIngredient] :=
  ((panRelease_threshold 100 100 demoIngredient [demoIngredient]).1
    (by
      rw [gt_iff_lt, Real.lt_sqrt (by norm_num : (0 : ℝ) ≤ 100)]
      push_cast
      norm_num)).1

/-! ## Lemmas about the lifecycle state machine -/

theorem applyPendingEffect_stored (s : State) :
    (applyPendingEffect s).storedMealId = s.storedMealId := by
  obtain ⟨mn, md, ings, pmid, oib, et, sem, pm, smid⟩ := s
  rcases pm with _ | ⟨a, img⟩
  · rfl
  · rcases a with _ | a <;> rcases smid with _ | id <;> rcases img with _ | img <;>
      simp [applyPendingEffect] <;> split_ifs <;> rfl

theorem applyPendingEffect_pending (s : State) :
    (applyPendingEffect s).pendingMeal = s.pendingMeal := by
  obtain ⟨mn, md, ings, pmid, oib, et, sem, pm, smid⟩ := s
  rcases pm with _ | ⟨a, img⟩
  · rfl
  · rcases a with _ | a <;> rcases smid with _ | id <;> rcases img with _ | img <;>
      simp [applyPendingEffect] <;> split_ifs <;> rfl

theorem applyPendingEffect_posted (s : State)
    (h : s.postedMealId = s.storedMealId) :
    (applyPendingEffect s).postedMealId = s.postedMealId := by
  obtain ⟨mn, md, ings, pmid, oib, et, sem, pm, smid⟩ := s
  rcases pm with _ | ⟨a, img⟩
  · rfl
  · simp only at h
    subst h
    rcases a with _ | a <;> rcases pmid with _ | id <;> rcases img with _ | img <;>
      simp [applyPendingEffect]

theorem applyPendingEffect_editText (s : State) :
    (applyPendingEffect s).editText = s.editText ∧
    (applyPendingEffect s).showEditModal = s.showEditModal := by
  obtain ⟨mn, md, ings, pmid, oib, et, sem, pm, smid⟩ := s
  rcases pm with _ | ⟨a, img⟩
  · exact ⟨rfl, rfl⟩
  · rcases a with _ | a <;> rcases smid with _ | id <;> rcases img with _ | img <;>
      constructor <;> simp [applyPendingEffect] <;> split_ifs <;> rfl

theorem applyPendingEffect_draft (s : State) (pm : PendingMeal) (a : Analysis)
    (hpm : s.pendingMeal = some pm) (ha : pm.analysis = some a) :
    (applyPendingEffect s).mealName = a.meal_name.getD "" ∧
    (applyPendingEffect s).mealDescription = a.description.getD "" ∧
    (applyPendingEffect s).ingredients = formatIngredients (a.ingredients.getD []) := by
  obtain ⟨mn, md, ings, pmid, oib, et, sem, pm0, smid⟩ := s
  simp only at hpm
  subst hpm
  obtain ⟨a0, img⟩ := pm
  simp only at ha
  subst ha
  rcases smid with _ | id <;> rcases img with _ | img <;>
    refine ⟨?_, ?_, ?_⟩ <;> simp [applyPendingEffect] <;> split_ifs <;> rfl

theorem jsTrim_replicateA :
    jsTrim (List.replicate 1000 'A') = List.replicate 1000 'A' := by
  have h1 : List.replicate 1000 'A' = 'A' :: List.replicate 999 'A' :=
    List.replicate_succ 'A' 999
  have hdw : List.dropWhile isJsSpace (List.replicate 1000 'A') =
      List.replicate 1000 'A' := by
    rw [h1, List.dropWhile_cons, if_neg (by decide)]
  unfold jsTrim
  rw [hdw, List.reverse_replicate, hdw, List.reverse_replicate]

theorem matchesBase64_replicateA :
    matchesBase64 (List.replicate 1000 'A') = true :=
  (matchesBase64_iff _).mpr
    ⟨List.replicate 1000 'A', 0, by omega,
      by rw [List.replicate_zero, List.append_nil],
      fun c hc => by rw [List.eq_of_mem_replicate hc]; decide⟩

/-- The 1000-character alphabet payload validates to itself. -/
theorem validate_goodImage : validateAndProcessImage goodImage = some goodImage := by
  have hdata : goodImage.data = List.replicate 1000 'A' := rfl
  have hne : List.replicate 1000 'A' ≠ ([] : List Char) := by
    intro h
    have h2 := congrArg List.length h
    rw [List.length_replicate] at h2
    simp at h2
  unfold validateAndProcessImage validateChars
  rw [hdata, jsTrim_replicateA, if_neg hne, stripDataUri_replicateA,
    matchesBase64_replicateA, if_pos rfl, List.length_replicate,
    if_neg (by omega)]
  rfl

/-! Branch equations for the handlers. -/

theorem analyzeImage_invalid (img : String) (res : AnalyzeRes) (s : State)
    (h : validateAndProcessImage img = none) : analyzeImage img res s = s := by
  unfold analyzeImage
  simp only [h]

theorem analyzeImage_rejected (img v : String) (s : State)
    (h : validateAndProcessImage img = some v) :
    analyzeImage img AnalyzeRes.rejected s =
      { s with originalImageBase64 := v, postedMealId := none,
               storedMealId := none } := by
  unfold analyzeImage
  simp only [h]

theorem analyzeImage_fulfilled (img v : String) (a : Analysis) (s : State)
    (h : validateAndProcessImage img = some v) :
    analyzeImage img (AnalyzeRes.fulfilled a) s =
      applyPendingEffect
        { s with originalImageBase64 := v, postedMealId := none,
                 storedMealId := none,
                 pendingMeal := some ⟨some a, some v⟩ } := by
  unfold analyzeImage
  simp only [h]

theorem reAnalyze_blocked (res : AnalyzeRes) (s : State)
    (h : reAnalyzeValidated s = none) : reAnalyzeWithEdits res s = s := by
  unfold reAnalyzeWithEdits
  simp only [h]

theorem reAnalyze_rejected (s : State) :
    reAnalyzeWithEdits AnalyzeRes.rejected s = s := by
  unfold reAnalyzeWithEdits
  cases h : reAnalyzeValidated s <;> rfl

theorem reAnalyze_fulfilled (v : String) (a : Analysis) (s : State)
    (h : reAnalyzeValidated s = some v) :
    reAnalyzeWithEdits (AnalyzeRes.fulfilled a) s =
      applyPendingEffect
        { s with pendingMeal := some ⟨some a, some v⟩,
                 showEditModal := false, editText := "" } := by
  unfold reAnalyzeWithEdits
  simp only [h]

theorem handlePost_no_draft (res : PostRes) (s : State)
    (h : s.pendingMeal = none) : handlePost res s = s := by
  unfold handlePost
  simp only [h]

theorem handlePost_rejected (s : State) :
    handlePost PostRes.rejected s = s := by
  unfold handlePost
  cases h : s.pendingMeal <;> rfl

theorem handlePost_no_id (pm : PendingMeal) (s : State)
    (h : s.pendingMeal = some pm) :
    handlePost (PostRes.fulfilled none) s = s := by
  unfold handlePost
  simp only [h]

theorem handlePost_falsy_id (pm : PendingMeal) (s : State)
    (h : s.pendingMeal = some pm) :
    handlePost (PostRes.fulfilled (some "")) s = s := by
  unfold handlePost
  simp only [h]
  rw [if_neg (by simp)]

theorem handlePost_success (pm : PendingMeal) (id : String) (s : State)
    (h : s.pendingMeal = some pm) (hid : id ≠ "") :
    handlePost (PostRes.fulfilled (some id)) s =
      { s with postedMealId := some id, storedMealId := some id } := by
  unfold handlePost
  simp only [h]
  rw [if_pos hid]

theorem handleUpdate_no_id (res : UpdateRes) (s : State)
    (h : s.postedMealId = none) : handleUpdate res s = s := by
  unfold handleUpdate
  simp only [h]

theorem handleUpdate_rejected (s : State) :
    handleUpdate UpdateRes.rejected s = s := by
  unfold handleUpdate
  cases h : s.postedMealId <;> rfl

theorem handleUpdate_success (id : String) (s : State)
    (h : s.postedMealId = some id) :
    handleUpdate UpdateRes.fulfilled s =
      { s with showEditModal := false, editText := "",
               pendingMeal := none, postedMealId := none,
               originalImageBase64 := "", storedMealId := none } := by
  unfold handleUpdate
  simp only [h]

/-- `MealInv` is preserved by every event. -/
theorem mealInv_step (s : State) (e : Event) (h : MealInv s) :
    MealInv (step s e) := by
  obtain ⟨h1, h2⟩ := h
  cases e with
  | analyzeImageEv img res =>
      show MealInv (analyzeImage img res s)
      cases hv : validateAndProcessImage img with
      | none => rw [analyzeImage_invalid img res s hv]; exact ⟨h1, h2⟩
      | some v =>
          cases res with
          | rejected =>
              rw [analyzeImage_rejected img v s hv]
              exact ⟨rfl, fun hh => absurd hh (by simp)⟩
          | fulfilled a =>
              rw [analyzeImage_fulfilled img v a s hv]
              refine ⟨?_, fun _ => ?_⟩
              · rw [applyPendingEffect_posted _ rfl, applyPendingEffect_stored]
              · rw [applyPendingEffect_pending]
                rfl
  | reAnalyzeEv res =>
      show MealInv (reAnalyzeWithEdits res s)
      cases hrv : reAnalyzeValidated s with
      | none => rw [reAnalyze_blocked res s hrv]; exact ⟨h1, h2⟩
      | some v =>
          cases res with
          | rejected => rw [reAnalyze_rejected]; exact ⟨h1, h2⟩
          | fulfilled a =>
              rw [reAnalyze_fulfilled v a s hrv]
              have hp := applyPendingEffect_posted
                { s with pendingMeal := some ⟨some a, some v⟩,
                         showEditModal := false, editText := "" } h1
              have hst := applyPendingEffect_stored
                { s with pendingMeal := some ⟨some a, some v⟩,
                         showEditModal := false, editText := "" }
              have hpd := applyPendingEffect_pending
                { s with pendingMeal := some ⟨some a, some v⟩,
                         showEditModal := false, editText := "" }
              refine ⟨?_, fun _ => ?_⟩
              · rw [hp, hst]
                exact h1
              · rw [hpd]
                rfl
  | postEv res =>
      show MealInv (handlePost res s)
      cases hpm : s.pendingMeal with
      | none => rw [handlePost_no_draft res s hpm]; exact ⟨h1, h2⟩
      | some pm =>
          cases res with
          | rejected => rw [handlePost_rejected]; exact ⟨h1, h2⟩
          | fulfilled mid =>
              cases mid with
              | none => rw [handlePost_no_id pm s hpm]; exact ⟨h1, h2⟩
              | some id =>
                  by_cases hid : id = ""
                  · subst hid
                    rw [handlePost_falsy_id pm s hpm]
                    exact ⟨h1, h2⟩
                  · rw [handlePost_success pm id s hpm hid]
                    exact ⟨rfl, fun _ => by simp [hpm]⟩
  | updateEv res =>
      show MealInv (handleUpdate res s)
      cases hpid : s.postedMealId with
      | none => rw [handleUpdate_no_id res s hpid]; exact ⟨h1, h2⟩
      | some id =>
          cases res with
          | rejected => rw [handleUpdate_rejected]; exact ⟨h1, h2⟩
          | fulfilled =>
              rw [handleUpdate_success id s hpid]
              exact ⟨rfl, fun hh => absurd hh (by simp)⟩
  | discardConfirm =>
      exact ⟨rfl, fun hh => absurd hh (by simp [step, handleDiscard])⟩
  | discardCancel => exact ⟨h1, h2⟩
  | setMealNameEv v => exact ⟨h1, h2⟩
  | setMealDescriptionEv v => exact ⟨h1, h2⟩
  | setEditTextEv v => exact ⟨h1, h2⟩
  | removeIngredientEv iid => exact ⟨h1, h2⟩
  | saveIngredientEditEv ing => exact ⟨h1, h2⟩

theorem reachable_mealInv {s : State} (hs : Reachable s) : MealInv s := by
  induction hs with
  | init => exact ⟨rfl, fun hh => absurd hh (by simp [initState])⟩
  | step e _ ih => exact mealInv_step _ e ih

/-- Outside the designated create/reset events both meal ids are kept. -/
theorem step_preserves_ids (s : State) (e : Event) (hInv : MealInv s)
    (h : ¬ mealIdEvent s e) :
    (step s e).postedMealId = s.postedMealId ∧
    (step s e).storedMealId = s.storedMealId := by
  cases e with
  | analyzeImageEv img res =>
      have hv : validateAndProcessImage img = none := by
        cases hvv : validateAndProcessImage img with
        | none => rfl
        | some v => exact absurd (by rw [show mealIdEvent s
            (Event.analyzeImageEv img res) =
              ((validateAndProcessImage img).isSome = true) from rfl, hvv]; rfl) h
      show (analyzeImage img res s).postedMealId = s.postedMealId ∧
        (analyzeImage img res s).storedMealId = s.storedMealId
      rw [analyzeImage_invalid img res s hv]
      exact ⟨rfl, rfl⟩
  | reAnalyzeEv res =>
      show (reAnalyzeWithEdits res s).postedMealId = s.postedMealId ∧
        (reAnalyzeWithEdits res s).storedMealId = s.storedMealId
      cases hrv : reAnalyzeValidated s with
      | none => rw [reAnalyze_blocked res s hrv]; exact ⟨rfl, rfl⟩
      | some v =>
          cases res with
          | rejected => rw [reAnalyze_rejected]; exact ⟨rfl, rfl⟩
          | fulfilled a =>
              rw [reAnalyze_fulfilled v a s hrv]
              have hp := applyPendingEffect_posted
                { s with pendingMeal := some ⟨some a, some v⟩,
                         showEditModal := false, editText := "" } hInv.1
              have hst := applyPendingEffect_stored
                { s with pendingMeal := some ⟨some a, some v⟩,
                         showEditModal := false, editText := "" }
              exact ⟨hp, hst⟩
  | postEv res =>
      show (handlePost res s).postedMealId = s.postedMealId ∧
        (handlePost res s).storedMealId = s.storedMealId
      cases hpm : s.pendingMeal with
      | none => rw [handlePost_no_draft res s hpm]; exact ⟨rfl, rfl⟩
      | some pm =>
          cases res with
          | rejected => rw [handlePost_rejected]; exact ⟨rfl, rfl⟩
          | fulfilled mid =>
              cases mid with
              | none => rw [handlePost_no_id pm s hpm]; exact ⟨rfl, rfl⟩
              | some id =>
                  have hid : id = "" := by
                    by_contra hne
                    exact h ⟨by rw [hpm]; rfl, id, rfl, hne⟩
                  subst hid
                  rw [handlePost_falsy_id pm s hpm]
                  exact ⟨rfl, rfl⟩
  | updateEv res =>
      show (handleUpdate res s).postedMealId = s.postedMealId ∧
        (handleUpdate res s).storedMealId = s.storedMealId
      cases hpid : s.postedMealId with
      | none => rw [handleUpdate_no_id res s hpid]; exact ⟨hpid, rfl⟩
      | some id =>
          cases res with
          | rejected => rw [handleUpdate_rejected]; exact ⟨hpid, rfl⟩
          | fulfilled => exact absurd ⟨by rw [hpid]; rfl, rfl⟩ h
  | discardConfirm => exact absurd trivial h
  | discardCancel => exact ⟨rfl, rfl⟩
  | setMealNameEv v => exact ⟨rfl, rfl⟩
  | setMealDescriptionEv v => exact ⟨rfl, rfl⟩
  | setEditTextEv v => exact ⟨rfl, rfl⟩
  | removeIngredientEv iid => exact ⟨rfl, rfl⟩
  | saveIngredientEditEv ing => exact ⟨rfl, rfl⟩

/-- C4: in every reachable state the in-memory posted meal id agrees with
the durable record; it starts unset; a new capture with a valid image
clears both (for either analysis outcome, i.e. before the analysis call
resolves); a successful create with a truthy id while a draft exists sets
both to the returned id; a successful update and a confirmed discard clear
both; and no other event changes them — so the id is set exactly when a
create has succeeded since the most recent capture, update-commit or
discard. -/
theorem mealId_lifecycle (s : State) (hs : Reachable s) :
    s.postedMealId = s.storedMealId ∧
    initState.postedMealId = none ∧
    (∀ img res, (validateAndProcessImage img).isSome = true →
      (step s (Event.analyzeImageEv img res)).postedMealId = none ∧
      (step s (Event.analyzeImageEv img res)).storedMealId = none) ∧
    (∀ id, id ≠ "" → s.pendingMeal.isSome = true →
      (step s (Event.postEv (PostRes.fulfilled (some id)))).postedMealId =
          some id ∧
      (step s (Event.postEv (PostRes.fulfilled (some id)))).storedMealId =
          some id) ∧
    ((step s (Event.updateEv UpdateRes.fulfilled)).postedMealId = none ∧
      (step s (Event.updateEv UpdateRes.fulfilled)).storedMealId = none) ∧
    ((step s Event.discardConfirm).postedMealId = none ∧
      (step s Event.discardConfirm).storedMealId = none) ∧
    (∀ e, ¬ mealIdEvent s e →
      (step s e).postedMealId = s.postedMealId ∧
      (step s e).storedMealId = s.storedMealId) := by
  obtain ⟨h1, h2⟩ := reachable_mealInv hs
  refine ⟨h1, rfl, ?_, ?_, ?_, ⟨rfl, rfl⟩, ?_⟩
  · intro img res hv
    obtain ⟨v, hv'⟩ := Option.isSome_iff_exists.mp hv
    show (analyzeImage img res s).postedMealId = none ∧
      (analyzeImage img res s).storedMealId = none
    cases res with
    | rejected => rw [analyzeImage_rejected img v s hv']; exact ⟨rfl, rfl⟩
    | fulfilled a =>
        rw [analyzeImage_fulfilled img v a s hv']
        have hp := applyPendingEffect_posted
          { s with originalImageBase64 := v, postedMealId := none,
                   storedMealId := none,
                   pendingMeal := some ⟨some a, some v⟩ } rfl
        have hst := applyPendingEffect_stored
          { s with originalImageBase64 := v, postedMealId := none,
                   storedMealId := none,
                   pendingMeal := some ⟨some a, some v⟩ }
        exact ⟨hp, hst⟩
  · intro id hid hpm
    obtain ⟨pm, hpm'⟩ := Option.isSome_iff_exists.mp hpm
    show (handlePost (PostRes.fulfilled (some id)) s).postedMealId = some id ∧
      (handlePost (PostRes.fulfilled (some id)) s).storedMealId = some id
    rw [handlePost_success pm id s hpm' hid]
    exact ⟨rfl, rfl⟩
  · show (handleUpdate UpdateRes.fulfilled s).postedMealId = none ∧
      (handleUpdate UpdateRes.fulfilled s).storedMealId = none
    cases hpid : s.postedMealId with
    | none =>
        rw [handleUpdate_no_id UpdateRes.fulfilled s hpid]
        exact ⟨hpid, by rw [← h1]; exact hpid⟩
    | some id =>
        rw [handleUpdate_success id s hpid]
        exact ⟨rfl, rfl⟩
  · intro e he
    exact step_preserves_ids s e ⟨h1, h2⟩ he

/-- Witness for C4: from the fresh screen, a new capture with the valid
payload clears both ids before the analysis resolves. -/
theorem mealId_lifecycle_witness :
    (step initState
        (Event.analyzeImageEv goodImage
          (AnalyzeRes.fulfilled demoAnalysis))).postedMealId = none ∧
    (step initState
        (Event.analyzeImageEv goodImage
          (AnalyzeRes.fulfilled demoAnalysis))).storedMealId = none :=
  (mealId_lifecycle initState Reachable.init).2.2.1 goodImage
    (AnalyzeRes.fulfilled demoAnalysis) (by rw [validate_goodImage]; rfl)

/-- C5: a confirmed discard clears the pending meal, the in-memory meal id
and the durable record (together with the local draft fields) in the one
step; a cancelled discard changes nothing; and in every reachable state the
two ids agree and an id is only held while a pending meal exists, so no
reachable state has one of the three cleared without the others. -/
theorem discard_clears_all (s : State) (hs : Reachable s) :
    (step s Event.discardConfirm).pendingMeal = none ∧
    (step s Event.discardConfirm).postedMealId = none ∧
    (step s Event.discardConfirm).storedMealId = none ∧
    (step s Event.discardConfirm).mealName = "" ∧
    (step s Event.discardConfirm).mealDescription = "" ∧
    (step s Event.discardConfirm).ingredients = [] ∧
    step s Event.discardCancel = s ∧
    s.postedMealId = s.storedMealId ∧
    (s.postedMealId.isSome = true → s.pendingMeal.isSome = true) := by
  obtain ⟨h1, h2⟩ := reachable_mealInv hs
  exact ⟨rfl, rfl, rfl, rfl, rfl, rfl, rfl, h1, h2⟩

/-- Witness for C5 at the fresh screen state. -/
theorem discard_clears_all_witness :
    (step initState Event.discardConfirm).pendingMeal = none ∧
    (step initState Event.discardConfirm).postedMealId = none ∧
    (step initState Event.discardConfirm).storedMealId = none ∧
    initState.postedMealId = initState.storedMealId :=
  ⟨(discard_clears_all initState Reachable.init).1,
   (discard_clears_all initState Reachable.init).2.1,
   (discard_clears_all initState Reachable.init).2.2.1,
   (discard_clears_all initState Reachable.init).2.2.2.2.2.2.2.1⟩

/-- C6: when an image is available and validates, a fulfilled re-analysis
replaces the draft wholesale — name, description and ingredient list are
computed from the new response alone, so no prior local edit survives
unless the service echoes it — and a rejected re-analysis leaves the whole
state unchanged. -/
theorem reAnalyze_replaces_draft (s : State) (a : Analysis) (v : String)
    (hval : reAnalyzeValidated s = some v) :
    (step s (Event.reAnalyzeEv (AnalyzeRes.fulfilled a))).mealName =
        a.meal_name.getD "" ∧
    (step s (Event.reAnalyzeEv (AnalyzeRes.fulfilled a))).mealDescription =
        a.description.getD "" ∧
    (step s (Event.reAnalyzeEv (AnalyzeRes.fulfilled a))).ingredients =
        formatIngredients (a.ingredients.getD []) ∧
    (step s (Event.reAnalyzeEv (AnalyzeRes.fulfilled a))).pendingMeal =
        some ⟨some a, some v⟩ ∧
    step s (Event.reAnalyzeEv AnalyzeRes.rejected) = s := by
  have hstep : step s (Event.reAnalyzeEv (AnalyzeRes.fulfilled a)) =
      applyPendingEffect
        { s with pendingMeal := some ⟨some a, some v⟩,
                 showEditModal := false, editText := "" } :=
    reAnalyze_fulfilled v a s hval
  obtain ⟨hn, hd, hi⟩ := applyPendingEffect_draft
    { s with pendingMeal := some ⟨some a, some v⟩,
             showEditModal := false, editText := "" }
    ⟨some a, some v⟩ a rfl rfl
  have hpd := applyPendingEffect_pending
    { s with pendingMeal := some ⟨some a, some v⟩,
             showEditModal := false, editText := "" }
  rw [hstep]
  exact ⟨hn, hd, hi, hpd, reAnalyze_rejected s⟩

set_option maxRecDepth 8000 in
/-- Witness for C6: re-analysis over the concrete draft state. -/
theorem reAnalyze_replaces_draft_witness :
    (step draftState
        (Event.reAnalyzeEv (AnalyzeRes.fulfilled demoAnalysis))).mealName =
        demoAnalysis.meal_name.getD "" ∧
    (step draftState
        (Event.reAnalyzeEv (AnalyzeRes.fulfilled demoAnalysis))).mealDescription =
        demoAnalysis.description.getD "" ∧
    (step draftState
        (Event.reAnalyzeEv (AnalyzeRes.fulfilled demoAnalysis))).ingredients =
        formatIngredients (demoAnalysis.ingredients.getD []) ∧
    (step draftState
        (Event.reAnalyzeEv (AnalyzeRes.fulfilled demoAnalysis))).pendingMeal =
        some ⟨some demoAnalysis, some goodImage⟩ ∧
    step draftState (Event.reAnalyzeEv AnalyzeRes.rejected) = draftState := by
  have hval : reAnalyzeValidated draftState = some goodImage :=
    (rfl : reAnalyzeValidated draftState =
        validateAndProcessImage goodImage).trans validate_goodImage
  exact reAnalyze_replaces_draft draftState demoAnalysis goodImage hval

/-- C7: with no posted meal id, an update attempt of either outcome is
rejected locally — the state is unchanged and no persistence call is
dispatched. -/
theorem update_without_mealId_rejected (s : State) (res : UpdateRes)
    (h : s.postedMealId = none) :
    step s (Event.updateEv res) = s ∧
    callsOf s (Event.updateEv res) = [] := by
  refine ⟨handleUpdate_no_id res s h, ?_⟩
  show (match s.postedMealId with
    | none => ([] : List Call)
    | some id => [Call.updateCall id (updateText s)]) = []
  rw [h]

/-- Witness for C7 at the fresh screen state. -/
theorem update_without_mealId_rejected_witness :
    step initState (Event.updateEv UpdateRes.rejected) = initState ∧
    callsOf initState (Event.updateEv UpdateRes.rejected) = [] :=
  update_without_mealId_rejected initState UpdateRes.rejected rfl

/-- C10: the create call `handlePost` dispatches carries only the store's
pending meal — the argument-less `postMeal()` — so two states over the same
pending meal with arbitrarily different local edits (name, description,
ingredient list) dispatch identical calls; every dispatched call is the
store draft, never the locally assembled `updatedAnalysis`; and the post
step leaves the store draft and the local edits untouched. -/
theorem post_call_independent_of_edits (s1 s2 : State) (res : PostRes)
    (h : s1.pendingMeal = s2.pendingMeal) :
    callsOf s1 (Event.postEv res) = callsOf s2 (Event.postEv res) ∧
    (∀ c ∈ callsOf s1 (Event.postEv res),
      ∃ pm, s1.pendingMeal = some pm ∧ c = Call.createCall pm) ∧
    (step s1 (Event.postEv res)).pendingMeal = s1.pendingMeal ∧
    (step s1 (Event.postEv res)).mealName = s1.mealName ∧
    (step s1 (Event.postEv res)).mealDescription = s1.mealDescription ∧
    (step s1 (Event.postEv res)).ingredients = s1.ingredients := by
  have hcalls : ∀ s : State, callsOf s (Event.postEv res) =
      (match s.pendingMeal with
        | none => ([] : List Call)
        | some pm => [Call.createCall pm]) := fun _ => rfl
  have hstep : step s1 (Event.postEv res) = s1 ∨
      ∃ id, step s1 (Event.postEv res) =
        { s1 with postedMealId := some id, storedMealId := some id } := by
    cases hpm : s1.pendingMeal with
    | none => exact Or.inl (handlePost_no_draft res s1 hpm)
    | some pm =>
        cases res with
        | rejected => exact Or.inl (handlePost_rejected s1)
        | fulfilled mid =>
            cases mid with
            | none => exact Or.inl (handlePost_no_id pm s1 hpm)
            | some id =>
                by_cases hid : id = ""
                · subst hid
                  exact Or.inl (handlePost_falsy_id pm s1 hpm)
                · exact Or.inr ⟨id,
                    (handlePost_success pm id s1 hpm hid).trans (by rw [hpm])⟩
  refine ⟨?_, ?_, ?_, ?_, ?_, ?_⟩
  · rw [hcalls, hcalls, h]
  · intro c hc
    rw [hcalls] at hc
    cases hpm : s1.pendingMeal with
    | none => rw [hpm] at hc; exact absurd hc (by simp)
    | some pm =>
        rw [hpm] at hc
        refine ⟨pm, rfl, ?_⟩
        simpa using hc
  all_goals rcases hstep with hs | ⟨id, hs⟩ <;> rw [hs]

/-- Witness for C10: the same pending meal under two different local edit
states dispatches the same create call. -/
theorem post_call_independent_of_edits_witness :
    callsOf draftState (Event.postEv (PostRes.fulfilled (some "42"))) =
      callsOf draftStateEdited (Event.postEv (PostRes.fulfilled (some "42"))) :=
  (post_call_independent_of_edits draftState draftStateEdited
    (PostRes.fulfilled (some "42")) rfl).1

end Calo
